import Mathlib

/-!
Verification development for the bili-transcripts pipeline.

Two components are embedded shallowly:

* the quota-rotating ASR batch processor (`scripts/step3_asr_groq.py`):
  credential pool with per-key hourly/daily budgets, round-robin rotation,
  per-item status checkpointing;
* the incremental favourites collector (`scripts/step1_fetch_metadata.py`):
  per-folder page loop with retry/abandon logic, incremental cutoff with a
  consecutive-known streak, cursor bookkeeping and folder-granular progress
  saves.

Conventions of the embedding:

* machine floats that only ever hold whole seconds (durations, usage
  counters) are modelled as `Nat`;
* the wall clock is fixed: the hourly/daily window resets in
  `get_key_usage` (which only ever lower counters) never fire, i.e. we model
  a single run that stays inside one window;
* the remote services (yt-dlp download, Groq transcription, bilibili API)
  are parameters: deterministic functions supplied to the model;
* Python `dict`s keyed by strings are association lists with
  replace-on-insert semantics;
* file-system effects that the claims talk about (checkpoint saves, backend
  calls, downloads) are emitted as an explicit event trace.
-/

namespace BiliTranscripts

/-! ## Association lists (Python dict) -/

/-- Lookup in a string-keyed dict. -/
def lookupA {α : Type} (l : List (String × α)) (k : String) : Option α :=
  (l.find? (fun p => p.1 == k)).map (·.2)

/-- Insert/replace in a string-keyed dict (Python `d[k] = v`). -/
def insertA {α : Type} (l : List (String × α)) (k : String) (v : α) :
    List (String × α) :=
  match l with
  | [] => [(k, v)]
  | p :: rest => if p.1 == k then (k, v) :: rest else p :: insertA rest k v

/-! ## Batch processor data model (`step3_asr_groq.py`) -/

/-- `MAX_DURATION_SEC = 1800` (step3, line 36). -/
def MAX_DURATION_SEC : Nat := 1800

/-- `HOURLY_LIMIT_PER_KEY = 6000` (step3, line 38). -/
def HOURLY_LIMIT_PER_KEY : Nat := 6000

/-- `DAILY_LIMIT_PER_KEY = 25000` (step3, line 39). -/
def DAILY_LIMIT_PER_KEY : Nat := 25000

/-- A queue entry of `asr_queue.json`: identifier and declared duration. -/
structure Item where
  bvid : String
  duration : Nat
  deriving DecidableEq, Repr

/-- Per-item outcome tag, the closed set of values stored in
`st["processed"]`. -/
inductive Status where
  | ok
  | no_speech
  | error_download
  | error_transcribe
  deriving DecidableEq, Repr

/-- Per-key usage record (`st["key_usage"][kh]`), at a fixed instant:
window-start timestamps are omitted because the resets never fire inside
the modelled run. -/
structure Usage where
  hourly_audio : Nat
  daily_audio : Nat
  deriving DecidableEq, Repr

/-- The `stats` counters of the status checkpoint. -/
structure Stats where
  okCount : Nat
  noSpeech : Nat
  errDownload : Nat
  errTranscribe : Nat
  deriving DecidableEq, Repr

/-- The persisted checkpoint `st` (contents of `asr_status.json`). -/
structure St where
  processed : List (String × Status)
  key_usage : List (String × Usage)
  stats : Stats
  deriving DecidableEq, Repr

/-- `load_status` default when the file is missing (step3, lines 61-65). -/
def initSt : St := ⟨[], [], ⟨0, 0, 0, 0⟩⟩

/-- `key_hash(key) = key[-8:]` (step3, line 73). -/
def key_hash (key : String) : String := key.drop (key.length - 8)

/-- `get_key_usage` read back (step3, lines 76-91), with the time-window
resets elided (fixed instant) and the default-record insertion modelled as
lookup-with-default. -/
def get_key_usage (st : St) (kh : String) : Usage :=
  (lookupA st.key_usage kh).getD ⟨0, 0⟩

/-- `key_has_quota` (step3, lines 93-97): both the hourly and the daily
counter must still have room for `dur`. -/
def key_has_quota (st : St) (kh : String) (dur : Nat) : Bool :=
  let ku := get_key_usage st kh
  decide (ku.hourly_audio + dur ≤ HOURLY_LIMIT_PER_KEY) &&
    decide (ku.daily_audio + dur ≤ DAILY_LIMIT_PER_KEY)

/-- Round-robin search (inner loop of `find_available_key`, step3, lines
101-105): try offsets `i, i+1, …` for `count` more iterations — the
caller passes `count = len(API_KEYS)`, mirroring
`for i in range(len(API_KEYS))`. -/
def findKeyFrom (keys : List String) (st : St) (dur startIdx : Nat) :
    Nat → Nat → Option (Nat × String)
  | _, 0 => none
  | i, count + 1 =>
    let idx := (startIdx + i) % keys.length
    let kh := key_hash (keys.getD idx "")
    if key_has_quota st kh dur then some (idx, kh)
    else findKeyFrom keys st dur startIdx (i + 1) count

/-- `find_available_key` (step3, lines 99-106): first key, in round-robin
order starting at `startIdx`, with quota for `dur`. -/
def find_available_key (keys : List String) (st : St) (startIdx dur : Nat) :
    Option (Nat × String) :=
  findKeyFrom keys st dur startIdx 0 keys.length

/-- Outcome of one `transcribe` call, determined by the external backend.
`success nonempty actual` is a normal return with `text.strip()` non-empty
iff `nonempty`, and reported duration `actual`; `rateLimit` is an exception
whose message matches `rate_limit`/`429`; `otherError` any other
exception. -/
inductive BackendResult where
  | success (nonempty : Bool) (actual : Nat)
  | rateLimit
  | otherError
  deriving DecidableEq, Repr

/-- The environment of a batch run: credential pool, deterministic download
outcome per identifier, deterministic backend outcome per (key hash,
identifier). -/
structure Cfg where
  keys : List String
  dl : String → Bool
  backend : String → String → BackendResult

/-- Observable events of a batch run: checkpoint saves (`save_status`),
download attempts, backend calls (with the usage counters of the chosen key
as read at call time), and the two early-halt conditions. -/
inductive Ev where
  | save (s : St)
  | download (bvid : String) (okd : Bool)
  | backendCall (bvid kh : String) (hourly daily dur : Nat)
  | haltExhausted
  | haltDlStreak
  deriving DecidableEq, Repr

/-- Mutable state of the main loop besides the checkpoint: current key
index and hash, successes this run, consecutive download failures. -/
structure Loop where
  st : St
  currentIdx : Nat
  kh : String
  runOk : Nat
  dlFails : Nat
  deriving DecidableEq, Repr

/-- Record an item status plus its stats counter bump (the paired updates
at step3 lines 190-191, 208-209, 213-214, 232-233). -/
def recordStatus (st : St) (bvid : String) (s : Status) : St :=
  { st with
    processed := insertA st.processed bvid s
    stats :=
      match s with
      | .ok => { st.stats with okCount := st.stats.okCount + 1 }
      | .no_speech => { st.stats with noSpeech := st.stats.noSpeech + 1 }
      | .error_download =>
          { st.stats with errDownload := st.stats.errDownload + 1 }
      | .error_transcribe =>
          { st.stats with errTranscribe := st.stats.errTranscribe + 1 } }

/-- Add the actual transcribed duration to both counters of the current
key (step3, lines 216-217). -/
def chargeKey (st : St) (kh : String) (actual : Nat) : St :=
  let ku := get_key_usage st kh
  { st with
    key_usage := insertA st.key_usage kh
      ⟨ku.hourly_audio + actual, ku.daily_audio + actual⟩ }

/-- Result of one iteration of the item loop: either `break` out of the
loop (`halt`) or proceed to the next item (`cont`, which also covers
`continue`). -/
inductive StepRes where
  | halt (L : Loop) (evs : List Ev)
  | cont (L : Loop) (evs : List Ev)
  deriving DecidableEq, Repr

/-- The events of a step. -/
def StepRes.evs : StepRes → List Ev
  | .halt _ e => e
  | .cont _ e => e

/-- The loop state a step leaves behind. -/
def StepRes.loopSt : StepRes → Loop
  | .halt L _ => L
  | .cont L _ => L

/-- Prefix earlier events onto a step result. -/
def StepRes.prepend (evs0 : List Ev) : StepRes → StepRes
  | .halt L e => .halt L (evs0 ++ e)
  | .cont L e => .cont L (evs0 ++ e)

/-- The quota check and rotation before an item (step3, lines 172-186):
keep the current key if it has headroom, otherwise save the checkpoint and
search the pool round-robin from the next index; `none` means every key is
exhausted. -/
def rotateForItem (cfg : Cfg) (dur : Nat) (L : Loop) :
    Option Loop × List Ev :=
  if key_has_quota L.st L.kh dur then (some L, [])
  else
    match find_available_key cfg.keys L.st (L.currentIdx + 1) dur with
    | some (j, kh') =>
      (some { L with currentIdx := j, kh := kh' }, [.save L.st])
    | none => (none, [.save L.st])

/-- The transcription attempt after a successful download (step3, lines
203-241): call the backend and interpret the outcome. -/
def transcribePhase (cfg : Cfg) (v : Item) (L2 : Loop) : StepRes :=
  let dur := v.duration
  let ku := get_key_usage L2.st L2.kh
  let callEv : Ev :=
    .backendCall v.bvid L2.kh ku.hourly_audio ku.daily_audio dur
  match cfg.backend L2.kh v.bvid with
  | .success nonempty actual =>
    -- lines 205-217: record ok / no_speech, then charge the key
    let st1 :=
      if nonempty then recordStatus L2.st v.bvid .ok
      else recordStatus L2.st v.bvid .no_speech
    let st2 := chargeKey st1 L2.kh actual
    let runOk' := if nonempty then L2.runOk + 1 else L2.runOk
    let L3 := { L2 with st := st2, runOk := runOk' }
    -- periodic checkpoint (lines 238-241)
    let ckEvs : List Ev :=
      if runOk' % 20 = 0 ∧ runOk' > 0 then [.save st2] else []
    .cont L3 ([.download v.bvid true, callEv] ++ ckEvs)
  | .rateLimit =>
    -- lines 220-231: rotate and continue with the NEXT item, or halt
    (match find_available_key cfg.keys L2.st (L2.currentIdx + 1) dur with
    | some (j, kh') =>
      .cont { L2 with currentIdx := j, kh := kh' }
        [.download v.bvid true, callEv]
    | none =>
      .halt L2 [.download v.bvid true, callEv, .haltExhausted])
  | .otherError =>
    -- lines 232-234: record the error and continue
    let st1 := recordStatus L2.st v.bvid .error_transcribe
    let L3 := { L2 with st := st1 }
    let ckEvs : List Ev :=
      if L3.runOk % 20 = 0 ∧ L3.runOk > 0 then [.save st1] else []
    .cont L3 ([.download v.bvid true, callEv] ++ ckEvs)

/-- The download attempt and what follows it (step3, lines 188-241). -/
def downloadPhase (cfg : Cfg) (v : Item) (L1 : Loop) : StepRes :=
  if ¬ cfg.dl v.bvid then
    -- failure records the status, saves, and either breaks at 10
    -- consecutive failures or continues (lines 189-199)
    let st' := recordStatus L1.st v.bvid .error_download
    let L2 := { L1 with st := st', dlFails := L1.dlFails + 1 }
    let evs := [Ev.download v.bvid false, .save st']
    if L2.dlFails ≥ 10 then .halt L2 (evs ++ [.haltDlStreak])
    else .cont L2 evs
  else
    -- success resets the failure streak (line 201) and transcribes
    transcribePhase cfg v { L1 with dlFails := 0 }

/-- One iteration of the `for idx, v in enumerate(videos)` loop of `main`
(step3, lines 165-242) on item `v`. -/
def procStep (cfg : Cfg) (v : Item) (L : Loop) : StepRes :=
  -- skip: falsy bvid, or already ok / no_speech (line 167)
  if v.bvid = "" ∨ lookupA L.st.processed v.bvid = some .ok ∨
      lookupA L.st.processed v.bvid = some .no_speech then
    .cont L []
  else
    match rotateForItem cfg v.duration L with
    | (none, evs) => .halt L (evs ++ [.haltExhausted])
    | (some L1, evs) => (downloadPhase cfg v L1).prepend evs

/-- The whole item loop: iterate `procStep` until the queue is drained or
a `break` occurs.  Returns the final loop state and the event trace. -/
def procLoop (cfg : Cfg) : List Item → Loop → Loop × List Ev
  | [], L => (L, [])
  | v :: rest, L =>
    match procStep cfg v L with
    | .halt L' evs => (L', evs)
    | .cont L' evs =>
      let (L'', evs') := procLoop cfg rest L'
      (L'', evs ++ evs')

/-- `main` of step3 (lines 140-252): filter out items longer than
`MAX_DURATION_SEC`, pick the first key with any quota, run the loop, then
the unconditional final `save_status`.  Returns the final checkpoint and
the full event trace. -/
def runMain (cfg : Cfg) (st : St) (queue : List Item) : St × List Ev :=
  let videos := queue.filter (fun v => v.duration ≤ MAX_DURATION_SEC)
  match find_available_key cfg.keys st 0 0 with
  | none => (st, [.save st])
  | some (i, kh) =>
    let (L', evs) := procLoop cfg videos ⟨st, i, kh, 0, 0⟩
    (L'.st, evs ++ [.save L'.st])

/-- Checkpoints written during a run, in order (the states handed to
`save_status`). -/
def savesOf (evs : List Ev) : List St :=
  evs.filterMap (fun e => match e with | .save s => some s | _ => none)

/-- Does an event name the identifier `b` in a download or a backend
call? -/
def mentionsBvid (b : String) : Ev → Bool
  | .download b' _ => b' == b
  | .backendCall b' _ _ _ _ => b' == b
  | _ => false

/-- Number of backend calls a trace contains for identifier `b`. -/
def backendCallsFor (b : String) (evs : List Ev) : Nat :=
  (evs.filter (fun e =>
    match e with
    | .backendCall b' _ _ _ _ => b' == b
    | _ => false)).length

/-- The status a deterministic, key-independent environment assigns to an
identifier whenever the run processes it: download failure is
`error_download`; otherwise the backend result decides between `ok`,
`no_speech` and `error_transcribe`; a rate-limited item gets no status at
all. -/
def pureStatus (cfg : Cfg) (b : String) : Option Status :=
  if cfg.dl b then
    match cfg.backend "" b with
    | .success true _ => some .ok
    | .success false _ => some .no_speech
    | .rateLimit => none
    | .otherError => some .error_transcribe
  else some .error_download

/-! ### Concrete batch-run scenarios -/

/-- Two-key pool where only the first key is rate-limited on item `a`;
downloads always succeed. -/
def cfgRL : Cfg where
  keys := ["AAAAAAk0", "BBBBBBk1"]
  dl := fun _ => true
  backend := fun kh b =>
    if b == "a" && kh == "AAAAAAk0" then .rateLimit else .success true 10

/-- Queue for the rate-limit scenario. -/
def queueRL : List Item := [⟨"a", 10⟩, ⟨"b", 10⟩]

/-- One-key pool, deterministic and key-independent: `b` and `d` fail to
download, everything else transcribes successfully (`c` is short). -/
def cfgCrash : Cfg where
  keys := ["k0AAAAAA"]
  dl := fun b => !(b == "b" || b == "d")
  backend := fun _ b =>
    if b == "c" then .success true 500 else .success true 1700

/-- Queue for the crash-restart scenario: a failing download, three
successes that consume most of the hourly budget, another failing
download (which saves the checkpoint), then a short success. -/
def queueCrash : List Item :=
  [⟨"b", 1700⟩, ⟨"a1", 1700⟩, ⟨"a2", 1700⟩, ⟨"a3", 1700⟩,
   ⟨"d", 100⟩, ⟨"c", 500⟩]

/-- The checkpoint on disk if the uninterrupted run is killed after its
second `save_status` (the save triggered by `d`'s download failure): the
three successes are recorded with the hourly budget mostly consumed. -/
def crashSt : St :=
  (savesOf (runMain cfgCrash initSt queueCrash).2).getD 1 initSt

/-- Pool state for the exhaustion scenario: the single key's hourly
counter is already at the limit. -/
def stExhausted : St :=
  ⟨[], [("k0AAAAAA", ⟨6000, 6000⟩)], ⟨0, 0, 0, 0⟩⟩

/-- Loop state sitting at the exhausted key. -/
def loopExhausted : Loop := ⟨stExhausted, 0, "k0AAAAAA", 0, 0⟩

/-! ## Checkpoint write discipline

The two checkpoint writers are embedded as the sequence of file-system
operations they perform.  All operations other than the final rename act
on the sibling temporary path. -/

/-- File-system operations performed by a checkpoint save. -/
inductive FileOp where
  | openTemp
  | writeTemp
  | flushTemp
  | fsyncTemp
  | renameTempToTarget
  deriving DecidableEq, Repr

/-- `atomic_write_json` (step1, lines 72-80): open the `.tmp` sibling,
`json.dump`, `f.flush()`, `os.fsync`, `os.replace` onto the target. -/
def atomic_write_json_ops : List FileOp :=
  [.openTemp, .writeTemp, .flushTemp, .fsyncTemp, .renameTempToTarget]

/-- `save_status` (step3, lines 67-71): open the `.tmp` sibling,
`json.dump`, `Path.replace` onto the target.  No flush, no fsync. -/
def save_status_ops : List FileOp :=
  [.openTemp, .writeTemp, .renameTempToTarget]

/-- The target path is only ever touched by the final atomic rename, so a
reader sees either the old or the new complete file. -/
def atomicReplace (ops : List FileOp) : Bool :=
  ops.getLast? == some .renameTempToTarget &&
    ops.dropLast.all (fun op => op != .renameTempToTarget)

/-- The temporary file's bytes are forced durable before the rename. -/
def forcesDurableBeforeRename (ops : List FileOp) : Bool :=
  atomicReplace ops && ops.contains .fsyncTemp

/-! ## Incremental collector (`step1_fetch_metadata.py`) -/

/-- `INCREMENTAL_STOP_THRESHOLD = 3` (step1, lines 31-33). -/
def INCREMENTAL_STOP_THRESHOLD : Nat := 3

/-- An item of a favourites-API page, restricted to the fields the claims
are about: identifier and insertion marker. -/
structure Media where
  bvid : String
  fav_time : Nat
  deriving DecidableEq, Repr

/-- A collected video, restricted likewise (`parse_video_item`, step1,
lines 129-149, keeps many descriptive fields; only these two matter to
dedup and cursor logic). -/
structure Video where
  bvid : String
  fav_time : Nat
  deriving DecidableEq, Repr

/-- `parse_video_item` restricted to the modelled fields. -/
def parse_video_item (m : Media) : Video := ⟨m.bvid, m.fav_time⟩

/-- State of the per-page media scan (step1, lines 208-228): accumulated
new videos, known-set, `consecutive_known`, `should_stop_after_page`. -/
structure ScanSt where
  videos : List Video
  seen : List String
  ck : Nat
  stop : Bool
  deriving DecidableEq, Repr

/-- One iteration of `for item in medias` (step1, lines 209-228). -/
def scanStep (incr : Bool) (cutoff : Nat) (s : ScanSt) (m : Media) :
    ScanSt :=
  if incr ∧ m.bvid ∈ s.seen ∧ m.fav_time ≤ cutoff then
    -- known and at/below the cursor: bump the streak, maybe mark the stop
    let ck' := s.ck + 1
    { s with
      ck := ck'
      stop := s.stop || decide (ck' ≥ INCREMENTAL_STOP_THRESHOLD) }
  else
    -- line 221: consecutive_known = 0, then dedup / collect
    if m.bvid ∈ s.seen then { s with ck := 0 }
    else
      { videos := s.videos ++ [parse_video_item m]
        seen := s.seen ++ [m.bvid]
        ck := 0
        stop := s.stop }

/-- The whole media loop of one page. -/
def scanPage (incr : Bool) (cutoff : Nat) (medias : List Media)
    (s : ScanSt) : ScanSt :=
  medias.foldl (scanStep incr cutoff) s

/-- One answer of `fetch_page`: a normal body (`code == 0`), an error code
(`code != 0`), a timeout exception, or any other exception. -/
inductive PageResp where
  | ok (medias : List Media) (hasMore : Bool)
  | errCode (code : Int)
  | timeout
  | exc
  deriving DecidableEq, Repr

/-- State of the `while True` page loop of `fetch_folder` (step1, lines
163-252): collected videos, shared known-set, current page, consecutive
error count, `consecutive_known` (which survives page boundaries), and the
number of `fetch_page` calls made so far (indexing the remote). -/
structure FFSt where
  videos : List Video
  seen : List String
  page : Nat
  errors : Nat
  ck : Nat
  calls : Nat
  deriving DecidableEq, Repr

/-- Result of one iteration of the page loop: keep looping, or leave the
folder (`expired` marks the cookie-expired return). -/
inductive FStepRes where
  | cont (s : FFSt)
  | done (s : FFSt) (expired : Bool)
  deriving DecidableEq, Repr

/-- Lines 200-240: a page body with `code == 0` — reset the error count,
stop on an empty page, scan the medias, honour the incremental stop marker
only after the whole page, else advance to the next page unless
`has_more` is false. -/
def processPage (incr : Bool) (cutoff : Nat) (s : FFSt)
    (medias : List Media) (hasMore : Bool) : FStepRes :=
  let s0 := { s with errors := 0 }
  if medias.isEmpty then .done s0 false
  else
    let r := scanPage incr cutoff medias ⟨s0.videos, s0.seen, s0.ck, false⟩
    let s1 := { s0 with videos := r.videos, seen := r.seen, ck := r.ck }
    if r.stop then .done s1 false
    else
      let s2 := { s1 with page := s1.page + 1 }
      if hasMore then .cont s2 else .done s2 false

/-- One iteration of the `while True` loop of `fetch_folder` (step1,
lines 169-250).  The remote is a function of (call index, page). -/
def ffStep (incr : Bool) (cutoff : Nat) (remote : Nat → Nat → PageResp)
    (s : FFSt) : FStepRes :=
  let resp := remote s.calls s.page
  let s1 := { s with calls := s.calls + 1 }
  match resp with
  | .ok medias hm => processPage incr cutoff s1 medias hm
  | .timeout => .cont s1          -- lines 244-247: sleep and retry as-is
  | .exc => .done s1 false        -- lines 248-250: abandon the folder
  | .errCode c =>
    let s2 := { s1 with errors := s1.errors + 1 }   -- line 175
    if c = -403 then
      -- lines 176-189: refresh WBI keys and refetch the same page
      let resp2 := remote s2.calls s2.page
      let s3 := { s2 with calls := s2.calls + 1 }
      match resp2 with
      | .ok medias hm => processPage incr cutoff s3 medias hm
      | .errCode c2 =>
        if c2 = -101 then .done s3 true
        else if s3.errors ≥ 5 then .done s3 false
        else .cont s3
      | .timeout => .cont s3
      | .exc => .done s3 false
    else if c = -101 then .done s2 true             -- lines 190-192
    else if s2.errors ≥ 5 then .done s2 false       -- lines 193-195
    else .cont s2                                   -- retry the same page

/-- Fuel-bounded driver of the page loop; `none` means the fuel ran out
with the loop still going. -/
def ffRun (incr : Bool) (cutoff : Nat) (remote : Nat → Nat → PageResp) :
    Nat → FFSt → Option (FFSt × Bool)
  | 0, _ => none
  | fuel + 1, s =>
    match ffStep incr cutoff remote s with
    | .cont s' => ffRun incr cutoff remote fuel s'
    | .done s' expired => some (s', expired)

/-- `fetch_folder` entry state for a folder, given the start page and the
shared known-set. -/
def ffInit (startPage : Nat) (seen : List String) : FFSt :=
  ⟨[], seen, startPage, 0, 0, 0⟩

/-- A favourites folder as listed by the API (fields the model needs). -/
structure Folder where
  id : Nat
  media_count : Nat
  deriving DecidableEq, Repr

/-- The `.fetch_progress.json` checkpoint (full mode), restricted to the
fields the claims are about (the saved `total` is omitted). -/
structure Progress where
  videos : List Video
  next_page : Nat
  folder_idx : Nat
  seen_bvids : List String
  deriving DecidableEq, Repr

/-- `load_progress` default when the file is missing (step1, line 69). -/
def defaultProgress : Progress := ⟨[], 1, 0, []⟩

/-- The `.last_scan.json` record. -/
structure ScanRecord where
  latest_fav_time : Nat
  total_known : Nat
  deriving DecidableEq, Repr

/-- Where a retried full run starts (step1, lines 301-306): folder
`folder_idx`, and `next_page` only when some progress was made. -/
def resumeStart (p : Progress) : Nat × Nat :=
  (p.folder_idx,
   if p.folder_idx > 0 ∨ p.next_page > 1 then p.next_page else 1)

/-- Accumulator of the folder loop of `main` (step1, lines 308-353). -/
structure MState where
  allVideos : List Video
  seen : List String
  newCount : Nat
  maxFav : Nat
  saves : List Progress
  startPage : Nat
  deriving DecidableEq, Repr

/-- Merging one folder's fetch result into the accumulator (step1, lines
329-345): extend the video list and known-set, fold the new insertion
markers into the running maximum, and in full mode append the progress
checkpoint `{videos, next_page: 1, folder_idx: i+1, seen_bvids}`. -/
def folderMerge (isIncr : Bool) (i : Nat) (ms : MState) (fs : FFSt) :
    MState :=
  let ms2 : MState :=
    { allVideos := ms.allVideos ++ fs.videos
      seen := fs.seen
      newCount := ms.newCount + fs.videos.length
      maxFav := fs.videos.foldl (fun acc v => max acc v.fav_time) ms.maxFav
      saves := ms.saves
      startPage := ms.startPage }
  if ¬ isIncr then
    { ms2 with saves := ms2.saves ++ [⟨ms2.allVideos, 1, i + 1, ms2.seen⟩] }
  else ms2

/-- The `for i, folder in enumerate(folders)` loop of `main` (step1,
lines 312-353) over index-tagged folders.  `remote i` answers folder
`i`'s page fetches.  Returns `none` if a page loop ran out of fuel. -/
def folderLoop (isIncr : Bool) (cutoff : Nat)
    (remote : Nat → Nat → Nat → PageResp) (fuel startFolderIdx : Nat) :
    List (Nat × Folder) → MState → Option (MState × Bool)
  | [], ms => some (ms, false)
  | (i, f) :: rest, ms =>
    if ¬isIncr ∧ i < startFolderIdx then
      folderLoop isIncr cutoff remote fuel startFolderIdx rest ms
    else
      -- line 316: resume page only for the first resumed folder
      let page := if ¬isIncr ∧ i = startFolderIdx then ms.startPage else 1
      let ms1 := { ms with startPage := 1 }
      if f.media_count = 0 then
        folderLoop isIncr cutoff remote fuel startFolderIdx rest ms1
      else
        match ffRun isIncr cutoff (remote i) fuel (ffInit page ms1.seen) with
        | none => none
        | some (fs, expired) =>
          let ms3 := folderMerge isIncr i ms1 fs
          if expired then some (ms3, true)
          else folderLoop isIncr cutoff remote fuel startFolderIdx rest ms3

/-- Result of a collector run: merged video list, new-video count, the
full-mode progress saves, the expiry flag, and the `.last_scan.json`
record written at the end. -/
structure MainRes where
  allVideos : List Video
  newCount : Nat
  progressSaves : List Progress
  cookieExpired : Bool
  savedScan : ScanRecord
  deriving DecidableEq, Repr

/-- `main` of step1 (lines 255-386), with the remote and the three state
files as parameters.  Incremental mode requires `.last_scan.json` and no
`--full` flag; full mode resumes from `.fetch_progress.json` when present.
The run always ends by writing `.last_scan.json` (also on cookie
expiry). -/
def collectorMain (full : Bool) (lastScan : Option ScanRecord)
    (existingVideos : List Video) (progressFile : Option Progress)
    (folders : List Folder) (remote : Nat → Nat → Nat → PageResp)
    (fuel : Nat) : Option MainRes :=
  let isIncr : Bool := !full && lastScan.isSome
  let progress := progressFile.getD defaultProgress
  let cutoff :=
    if isIncr then (lastScan.getD ⟨0, 0⟩).latest_fav_time else 0
  let allVideos0 := if isIncr then existingVideos else progress.videos
  let seen0 :=
    if isIncr then existingVideos.map (·.bvid) else progress.seen_bvids
  let startFolderIdx := if isIncr then 0 else progress.folder_idx
  let startPage :=
    if isIncr then 1 else (resumeStart progress).2
  match folderLoop isIncr cutoff remote fuel startFolderIdx
      folders.enum ⟨allVideos0, seen0, 0, cutoff, [], startPage⟩ with
  | none => none
  | some (ms, expired) =>
    -- lines 376-381: never let max() see an empty sequence
    let maxFav :=
      if ms.maxFav = 0 ∧ ms.allVideos ≠ [] then
        (ms.allVideos.filterMap
          (fun v => if v.fav_time > 0 then some v.fav_time else none)
        ).foldl max 0
      else ms.maxFav
    some ⟨ms.allVideos, ms.newCount, ms.saves, expired,
      ⟨maxFav, ms.allVideos.length⟩⟩

/-! ### Concrete collector scenarios -/

/-- A remote that always times out. -/
def timeoutRemote : Nat → Nat → PageResp := fun _ _ => .timeout

/-- A remote whose folder 0 serves one good page and then raises an
unrecoverable exception on page 2. -/
def excRemote : Nat → Nat → Nat → PageResp := fun _ call _ =>
  if call = 0 then .ok [⟨"m1", 50⟩] true else .exc

/-! ## Helper lemmas -/

theorem lookupA_insertA_self {α : Type} (l : List (String × α)) (k : String)
    (v : α) : lookupA (insertA l k v) k = some v := by
  induction l with
  | nil => simp [insertA, lookupA]
  | cons p rest ih =>
    by_cases h : p.1 == k
    · simp [insertA, h, lookupA]
    · simp only [insertA, h, if_false]
      simpa [lookupA, List.find?, h] using ih

theorem lookupA_insertA_ne {α : Type} (l : List (String × α)) (k k' : String)
    (v : α) (h : k' ≠ k) : lookupA (insertA l k v) k' = lookupA l k' := by
  have hkk : (k == k') = false := by
    simpa using fun e => h e.symm
  induction l with
  | nil => simp [insertA, lookupA, List.find?, hkk]
  | cons p rest ih =>
    by_cases hp : p.1 == k
    · have hpk : p.1 = k := by simpa using hp
      simp [insertA, hp, lookupA, List.find?, hpk, hkk]
    · simp only [insertA, hp, if_false]
      by_cases hpk' : p.1 == k'
      · simp [lookupA, List.find?, hpk']
      · simp only [lookupA, List.find?, hpk'] at *
        simpa [lookupA] using ih

/-- `findKeyFrom` only returns keys that pass the quota check, at the
round-robin position of the first passing offset. -/
theorem findKeyFrom_spec (keys : List String) (st : St) (dur start : Nat) :
    ∀ count i j kh, findKeyFrom keys st dur start i count = some (j, kh) →
      key_has_quota st kh dur = true ∧
      ∃ o, i ≤ o ∧ o < i + count ∧ j = (start + o) % keys.length ∧
        kh = key_hash (keys.getD j "") ∧
        ∀ o', i ≤ o' → o' < o →
          key_has_quota st
            (key_hash (keys.getD ((start + o') % keys.length) "")) dur
            = false := by
  intro count
  induction count with
  | zero =>
    intro i j kh hfind
    exact absurd hfind (by simp [findKeyFrom])
  | succ n ihn =>
    intro i j kh hfind
    rw [findKeyFrom] at hfind
    by_cases hq :
        key_has_quota st (key_hash (keys.getD ((start + i) % keys.length)
          "")) dur
    · rw [if_pos hq] at hfind
      have hpair := Option.some.inj hfind
      have hj : j = (start + i) % keys.length :=
        (congrArg Prod.fst hpair).symm
      have hkh :
          kh = key_hash (keys.getD ((start + i) % keys.length) "") :=
        (congrArg Prod.snd hpair).symm
      refine ⟨?_, i, le_rfl, by omega, hj, ?_, ?_⟩
      · rw [hkh]; exact hq
      · rw [hkh, hj]
      · intro o' h1 h2; omega
    · rw [if_neg hq] at hfind
      obtain ⟨hq', o, ho1, ho2, ho3, ho4, ho5⟩ := ihn (i + 1) j kh hfind
      refine ⟨hq', o, by omega, by omega, ho3, ho4, ?_⟩
      intro o' h1 h2
      rcases Nat.eq_or_lt_of_le h1 with h | h
      · subst h; simpa using hq
      · exact ho5 o' h h2

/-- If no key in the pool has quota for `dur`, the round-robin search
fails. -/
theorem find_available_key_none (keys : List String) (st : St)
    (start dur : Nat)
    (h : ∀ idx, idx < keys.length →
      key_has_quota st (key_hash (keys.getD idx "")) dur = false) :
    find_available_key keys st start dur = none := by
  show findKeyFrom keys st dur start 0 keys.length = none
  suffices hgen : ∀ count i, count ≤ keys.length →
      findKeyFrom keys st dur start i count = none by
    exact hgen keys.length 0 le_rfl
  intro count
  induction count with
  | zero => intro i _; rfl
  | succ n ihn =>
    intro i hle
    rw [findKeyFrom]
    have hf := h ((start + i) % keys.length) (Nat.mod_lt _ (by omega))
    have hneg : ¬ (key_has_quota st
        (key_hash (keys.getD ((start + i) % keys.length) "")) dur
          = true) := by
      rw [hf]; simp
    rw [if_neg hneg, ihn (i + 1) (by omega)]

/-- The rotation phase either keeps a key that passed the check or picks
one that the round-robin search certified; the checkpoint is untouched. -/
theorem rotateForItem_some (cfg : Cfg) (dur : Nat) (L L1 : Loop)
    (evs : List Ev) (h : rotateForItem cfg dur L = (some L1, evs)) :
    key_has_quota L1.st L1.kh dur = true ∧ L1.st = L.st := by
  unfold rotateForItem at h
  by_cases hq : key_has_quota L.st L.kh dur
  · rw [if_pos hq] at h
    obtain ⟨h1, -⟩ := Prod.mk.injEq .. ▸ h
    cases Option.some.inj (by exact congrArg Prod.fst h)
    exact ⟨hq, rfl⟩
  · rw [if_neg hq] at h
    cases hfind : find_available_key cfg.keys L.st (L.currentIdx + 1) dur
      with
    | none => rw [hfind] at h; exact absurd (congrArg Prod.fst h) (by simp)
    | some p =>
      obtain ⟨j, kh'⟩ := p
      rw [hfind] at h
      have hL1 := Option.some.inj (congrArg Prod.fst h)
      obtain ⟨hquota, -⟩ := findKeyFrom_spec cfg.keys L.st dur
        (L.currentIdx + 1) cfg.keys.length 0 j kh' hfind
      subst hL1
      exact ⟨hquota, rfl⟩

/-- Rotation emits only checkpoint saves. -/
theorem rotateForItem_evs (cfg : Cfg) (dur : Nat) (L : Loop) :
    (rotateForItem cfg dur L).2 = [] ∨
      (rotateForItem cfg dur L).2 = [.save L.st] := by
  unfold rotateForItem
  by_cases hq : key_has_quota L.st L.kh dur
  · rw [if_pos hq]; left; rfl
  · rw [if_neg hq]
    cases find_available_key cfg.keys L.st (L.currentIdx + 1) dur with
    | none => right; rfl
    | some p => obtain ⟨j, kh'⟩ := p; right; rfl

/-- Any backend call made by the transcription phase carries usage
counters that, together with the item's cost estimate, stay within both
budgets — provided the chosen key passed the quota check. -/
theorem transcribePhase_backendCall_quota (cfg : Cfg) (v : Item)
    (L2 : Loop) (hq : key_has_quota L2.st L2.kh v.duration = true)
    (b kh : String) (hh dd dur : Nat)
    (hev : Ev.backendCall b kh hh dd dur ∈ (transcribePhase cfg v L2).evs) :
    hh + dur ≤ HOURLY_LIMIT_PER_KEY ∧ dd + dur ≤ DAILY_LIMIT_PER_KEY := by
  have hq' := hq
  simp only [key_has_quota, Bool.and_eq_true, decide_eq_true_eq] at hq'
  unfold transcribePhase at hev
  have hcall : hh = (get_key_usage L2.st L2.kh).hourly_audio ∧
      dd = (get_key_usage L2.st L2.kh).daily_audio ∧ dur = v.duration := by
    cases hbe : cfg.backend L2.kh v.bvid with
    | success nonempty actual =>
      simp only [hbe] at hev
      by_cases hck : (if nonempty then L2.runOk + 1 else L2.runOk) % 20 = 0
          ∧ (if nonempty then L2.runOk + 1 else L2.runOk) > 0
      · simp [StepRes.evs, hck, Ev.backendCall.injEq] at hev
        obtain ⟨-, -, h1, h2, h3⟩ := hev
        exact ⟨h1, h2, h3⟩
      · simp [StepRes.evs, hck, Ev.backendCall.injEq] at hev
        obtain ⟨-, -, h1, h2, h3⟩ := hev
        exact ⟨h1, h2, h3⟩
    | rateLimit =>
      simp only [hbe] at hev
      cases hfind : find_available_key cfg.keys L2.st (L2.currentIdx + 1)
          v.duration with
      | none =>
        simp [hfind, StepRes.evs, Ev.backendCall.injEq] at hev
        obtain ⟨-, -, h1, h2, h3⟩ := hev
        exact ⟨h1, h2, h3⟩
      | some p =>
        obtain ⟨j, kh'⟩ := p
        simp [hfind, StepRes.evs, Ev.backendCall.injEq] at hev
        obtain ⟨-, -, h1, h2, h3⟩ := hev
        exact ⟨h1, h2, h3⟩
    | otherError =>
      simp only [hbe] at hev
      by_cases hck : L2.runOk % 20 = 0 ∧ L2.runOk > 0
      · simp [StepRes.evs, hck, Ev.backendCall.injEq] at hev
        obtain ⟨-, -, h1, h2, h3⟩ := hev
        exact ⟨h1, h2, h3⟩
      · simp [StepRes.evs, hck, Ev.backendCall.injEq] at hev
        obtain ⟨-, -, h1, h2, h3⟩ := hev
        exact ⟨h1, h2, h3⟩
  obtain ⟨h1, h2, h3⟩ := hcall
  subst h1; subst h2; subst h3
  exact hq'


/-- The download phase only calls the backend through the transcription
phase, with the same checkpoint and key. -/
theorem downloadPhase_backendCall_quota (cfg : Cfg) (v : Item) (L1 : Loop)
    (hq : key_has_quota L1.st L1.kh v.duration = true)
    (b kh : String) (hh dd dur : Nat)
    (hev : Ev.backendCall b kh hh dd dur ∈ (downloadPhase cfg v L1).evs) :
    hh + dur ≤ HOURLY_LIMIT_PER_KEY ∧ dd + dur ≤ DAILY_LIMIT_PER_KEY := by
  unfold downloadPhase at hev
  by_cases hdl : cfg.dl v.bvid
  · rw [if_neg (by simpa using hdl)] at hev
    exact transcribePhase_backendCall_quota cfg v
      { L1 with dlFails := 0 } hq b kh hh dd dur hev
  · rw [if_pos (by simpa using hdl)] at hev
    by_cases hstreak : L1.dlFails + 1 ≥ 10
    · simp [hstreak, StepRes.evs] at hev
    · simp [hstreak, StepRes.evs] at hev

/-- Any backend call made while processing one item respects both
budgets. -/
theorem procStep_backendCall_quota (cfg : Cfg) (v : Item) (L : Loop)
    (b kh : String) (hh dd dur : Nat)
    (hev : Ev.backendCall b kh hh dd dur ∈ (procStep cfg v L).evs) :
    hh + dur ≤ HOURLY_LIMIT_PER_KEY ∧ dd + dur ≤ DAILY_LIMIT_PER_KEY := by
  unfold procStep at hev
  by_cases hskip : v.bvid = "" ∨ lookupA L.st.processed v.bvid = some .ok ∨
      lookupA L.st.processed v.bvid = some .no_speech
  · rw [if_pos hskip] at hev
    simp [StepRes.evs] at hev
  · rw [if_neg hskip] at hev
    cases hrot : rotateForItem cfg v.duration L with
    | mk ol evs =>
      rw [hrot] at hev
      have hre : evs = [] ∨ evs = [.save L.st] := by
        have h0 := rotateForItem_evs cfg v.duration L
        rw [hrot] at h0
        simpa using h0
      cases ol with
      | none =>
        rcases hre with rfl | rfl <;> simp [StepRes.evs] at hev
      | some L1 =>
        obtain ⟨hq1, -⟩ := rotateForItem_some cfg v.duration L L1 evs hrot
        have hev2 : Ev.backendCall b kh hh dd dur ∈
            (StepRes.prepend evs (downloadPhase cfg v L1)).evs := by
          simpa using hev
        have hev' : Ev.backendCall b kh hh dd dur ∈
            (downloadPhase cfg v L1).evs := by
          cases hd : downloadPhase cfg v L1 with
          | halt L2 e2 =>
            rw [hd] at hev2
            rcases hre with rfl | rfl <;>
              simpa [StepRes.prepend, StepRes.evs] using hev2
          | cont L2 e2 =>
            rw [hd] at hev2
            rcases hre with rfl | rfl <;>
              simpa [StepRes.prepend, StepRes.evs] using hev2
        exact downloadPhase_backendCall_quota cfg v L1 hq1 b kh hh dd dur
          hev'

/-- Any backend call made during the item loop respects both budgets. -/
theorem procLoop_backendCall_quota (cfg : Cfg) :
    ∀ (queue : List Item) (L : Loop) (b kh : String) (hh dd dur : Nat),
    Ev.backendCall b kh hh dd dur ∈ (procLoop cfg queue L).2 →
    hh + dur ≤ HOURLY_LIMIT_PER_KEY ∧ dd + dur ≤ DAILY_LIMIT_PER_KEY := by
  intro queue
  induction queue with
  | nil => intro L b kh hh dd dur hev; simp [procLoop] at hev
  | cons v rest ih =>
    intro L b kh hh dd dur hev
    rw [procLoop] at hev
    cases hstep : procStep cfg v L with
    | halt L' evs =>
      rw [hstep] at hev
      have : Ev.backendCall b kh hh dd dur ∈ (procStep cfg v L).evs := by
        rw [hstep]; exact hev
      exact procStep_backendCall_quota cfg v L b kh hh dd dur this
    | cont L' evs =>
      rw [hstep] at hev
      simp only [List.mem_append] at hev
      rcases hev with hev | hev
      · have : Ev.backendCall b kh hh dd dur ∈ (procStep cfg v L).evs := by
          rw [hstep]; exact hev
        exact procStep_backendCall_quota cfg v L b kh hh dd dur this
      · exact ih L' b kh hh dd dur hev


/-- **C1** — For every item the batch processor is about to process, the
credential actually chosen satisfies both budget checks at selection time:
every backend call in a run's trace carries usage counters with
`hourly + cost ≤ hourly budget` and `daily + cost ≤ daily budget`; and
when a search is needed, `find_available_key` walks the pool round-robin
from the given start index and returns only a credential with headroom in
both windows (the first such credential, all earlier offsets lacking
headroom). -/
theorem chosen_credential_has_headroom :
    (∀ (cfg : Cfg) (st : St) (queue : List Item) (b kh : String)
        (hh dd dur : Nat),
        Ev.backendCall b kh hh dd dur ∈ (runMain cfg st queue).2 →
        hh + dur ≤ HOURLY_LIMIT_PER_KEY ∧ dd + dur ≤ DAILY_LIMIT_PER_KEY) ∧
    (∀ (keys : List String) (st : St) (start dur j : Nat) (kh : String),
        find_available_key keys st start dur = some (j, kh) →
        key_has_quota st kh dur = true ∧
        ∃ o, o < keys.length ∧ j = (start + o) % keys.length ∧
          kh = key_hash (keys.getD j "") ∧
          ∀ o', o' < o → key_has_quota st
            (key_hash (keys.getD ((start + o') % keys.length) "")) dur
              = false) := by
  constructor
  · intro cfg st queue b kh hh dd dur hev
    unfold runMain at hev
    cases hfind : find_available_key cfg.keys st 0 0 with
    | none => rw [hfind] at hev; simp at hev
    | some p =>
      obtain ⟨i, kh0⟩ := p
      rw [hfind] at hev
      cases hpl : procLoop cfg
          (queue.filter (fun v => v.duration ≤ MAX_DURATION_SEC))
          ⟨st, i, kh0, 0, 0⟩ with
      | mk L' evs =>
        simp only [hpl] at hev
        simp only [List.mem_append, List.mem_singleton] at hev
        rcases hev with hev | hev
        · have : Ev.backendCall b kh hh dd dur ∈ (procLoop cfg
              (queue.filter (fun v => v.duration ≤ MAX_DURATION_SEC))
              ⟨st, i, kh0, 0, 0⟩).2 := by rw [hpl]; exact hev
          exact procLoop_backendCall_quota cfg _ _ b kh hh dd dur this
        · exact absurd hev (by simp)
  · intro keys st start dur j kh hfind
    obtain ⟨hq, o, -, ho2, ho3, ho4, ho5⟩ :=
      findKeyFrom_spec keys st dur start keys.length 0 j kh hfind
    exact ⟨hq, o, by omega, ho3, ho4, fun o' h => ho5 o' (Nat.zero_le o') h⟩

/-- Witness for C1 at a concrete two-key run: the call made for item `b`
on the rotated-to key, and a concrete round-robin search result. -/
theorem chosen_credential_has_headroom_witness :
    (0 + 10 ≤ HOURLY_LIMIT_PER_KEY ∧ 0 + 10 ≤ DAILY_LIMIT_PER_KEY) ∧
    (key_has_quota initSt "BBBBBBk1" 0 = true ∧
      ∃ o, o < cfgRL.keys.length ∧ 1 = (1 + o) % cfgRL.keys.length ∧
        "BBBBBBk1" = key_hash (cfgRL.keys.getD 1 "") ∧
        ∀ o', o' < o → key_has_quota initSt
          (key_hash (cfgRL.keys.getD ((1 + o') % cfgRL.keys.length) "")) 0
            = false) :=
  ⟨chosen_credential_has_headroom.1 cfgRL initSt queueRL "b" "BBBBBBk1"
      0 0 10 (by decide),
   chosen_credential_has_headroom.2 cfgRL.keys initSt 1 0 1 "BBBBBBk1"
      (by decide)⟩


/-- The transcription phase touches no processed-status entry other than
the item's own, and mentions no other identifier in its events. -/
theorem transcribePhase_other_bvid (cfg : Cfg) (v : Item) (L2 : Loop)
    (b : String) (hne : v.bvid ≠ b) :
    lookupA (transcribePhase cfg v L2).loopSt.st.processed b
      = lookupA L2.st.processed b ∧
    ∀ e ∈ (transcribePhase cfg v L2).evs, mentionsBvid b e = false := by
  have hbeq : (v.bvid == b) = false := by simpa using hne
  unfold transcribePhase
  cases hbe : cfg.backend L2.kh v.bvid with
  | success nonempty actual =>
    constructor
    · by_cases hck : (if nonempty then L2.runOk + 1 else L2.runOk) % 20 = 0
          ∧ (if nonempty then L2.runOk + 1 else L2.runOk) > 0 <;>
      cases nonempty <;>
        simp [StepRes.loopSt, chargeKey, recordStatus,
          lookupA_insertA_ne _ _ _ _ (Ne.symm hne)]
    · intro e he
      by_cases hck : (if nonempty then L2.runOk + 1 else L2.runOk) % 20 = 0
          ∧ (if nonempty then L2.runOk + 1 else L2.runOk) > 0 <;>
        simp [StepRes.evs, hck] at he <;>
        rcases he with rfl | rfl | rfl <;>
        simp [mentionsBvid, hbeq]
  | rateLimit =>
    cases hfind : find_available_key cfg.keys L2.st (L2.currentIdx + 1)
        v.duration with
    | some p =>
      obtain ⟨j, kh'⟩ := p
      constructor
      · simp [hfind, StepRes.loopSt]
      · intro e he
        simp [hfind, StepRes.evs] at he
        rcases he with rfl | rfl <;> simp [mentionsBvid, hbeq]
    | none =>
      constructor
      · simp [hfind, StepRes.loopSt]
      · intro e he
        simp [hfind, StepRes.evs] at he
        rcases he with rfl | rfl | rfl <;> simp [mentionsBvid, hbeq]
  | otherError =>
    constructor
    · by_cases hck : L2.runOk % 20 = 0 ∧ L2.runOk > 0 <;>
        simp [StepRes.loopSt, recordStatus,
          lookupA_insertA_ne _ _ _ _ (Ne.symm hne)]
    · intro e he
      by_cases hck : L2.runOk % 20 = 0 ∧ L2.runOk > 0 <;>
        simp [StepRes.evs, hck] at he <;>
        rcases he with rfl | rfl | rfl <;>
        simp [mentionsBvid, hbeq]

/-- Likewise for the whole download-and-transcribe phase. -/
theorem downloadPhase_other_bvid (cfg : Cfg) (v : Item) (L1 : Loop)
    (b : String) (hne : v.bvid ≠ b) :
    lookupA (downloadPhase cfg v L1).loopSt.st.processed b
      = lookupA L1.st.processed b ∧
    ∀ e ∈ (downloadPhase cfg v L1).evs, mentionsBvid b e = false := by
  have hbeq : (v.bvid == b) = false := by simpa using hne
  unfold downloadPhase
  by_cases hdl : cfg.dl v.bvid
  · rw [if_neg (by simpa using hdl)]
    exact transcribePhase_other_bvid cfg v { L1 with dlFails := 0 } b hne
  · rw [if_pos (by simpa using hdl)]
    by_cases hstreak : L1.dlFails + 1 ≥ 10
    · constructor
      · simp [hstreak, StepRes.loopSt, recordStatus,
          lookupA_insertA_ne _ _ _ _ (Ne.symm hne)]
      · intro e he
        simp [hstreak, StepRes.evs] at he
        rcases he with rfl | rfl | rfl <;> simp [mentionsBvid, hbeq]
    · constructor
      · simp [hstreak, StepRes.loopSt, recordStatus,
          lookupA_insertA_ne _ _ _ _ (Ne.symm hne)]
      · intro e he
        simp [hstreak, StepRes.evs] at he
        rcases he with rfl | rfl <;> simp [mentionsBvid, hbeq]

/-- One loop iteration on an item with a different identifier neither
changes `b`'s status nor mentions `b`. -/
theorem procStep_other_bvid (cfg : Cfg) (v : Item) (L : Loop)
    (b : String) (hne : v.bvid ≠ b) :
    lookupA (procStep cfg v L).loopSt.st.processed b
      = lookupA L.st.processed b ∧
    ∀ e ∈ (procStep cfg v L).evs, mentionsBvid b e = false := by
  unfold procStep
  by_cases hskip : v.bvid = "" ∨ lookupA L.st.processed v.bvid = some .ok ∨
      lookupA L.st.processed v.bvid = some .no_speech
  · rw [if_pos hskip]
    exact ⟨rfl, by simp [StepRes.evs]⟩
  · rw [if_neg hskip]
    cases hrot : rotateForItem cfg v.duration L with
    | mk ol evs =>
      have hre : evs = [] ∨ evs = [.save L.st] := by
        have h0 := rotateForItem_evs cfg v.duration L
        rw [hrot] at h0
        simpa using h0
      cases ol with
      | none =>
        constructor
        · simp [StepRes.loopSt]
        · intro e he
          simp only [StepRes.evs] at he
          rcases hre with rfl | rfl <;> simp at he
          · subst he; simp [mentionsBvid]
          · rcases he with rfl | rfl <;> simp [mentionsBvid]
      | some L1 =>
        obtain ⟨-, hst⟩ := rotateForItem_some cfg v.duration L L1 evs hrot
        obtain ⟨hp1, hp2⟩ := downloadPhase_other_bvid cfg v L1 b hne
        constructor
        · cases hd : downloadPhase cfg v L1 with
          | halt L2 e2 =>
            rw [hd] at hp1
            simp only [StepRes.prepend, hd, StepRes.loopSt] at hp1 ⊢
            rw [hp1, hst]
          | cont L2 e2 =>
            rw [hd] at hp1
            simp only [StepRes.prepend, hd, StepRes.loopSt] at hp1 ⊢
            rw [hp1, hst]
        · intro e he
          cases hd : downloadPhase cfg v L1 with
          | halt L2 e2 =>
            rw [hd] at hp2
            simp only [StepRes.prepend, hd, StepRes.evs] at hp2 he
            simp only [List.mem_append] at he
            rcases he with he | he
            · rcases hre with rfl | rfl <;> simp at he
              subst he; simp [mentionsBvid]
            · exact hp2 e he
          | cont L2 e2 =>
            rw [hd] at hp2
            simp only [StepRes.prepend, hd, StepRes.evs] at hp2 he
            simp only [List.mem_append] at he
            rcases he with he | he
            · rcases hre with rfl | rfl <;> simp at he
              subst he; simp [mentionsBvid]
            · exact hp2 e he


/-- An item already recorded `ok` or `no_speech` is skipped outright:
no state change, no events (step3, line 167). -/
theorem procStep_skip (cfg : Cfg) (v : Item) (L : Loop)
    (h : lookupA L.st.processed v.bvid = some .ok ∨
      lookupA L.st.processed v.bvid = some .no_speech) :
    procStep cfg v L = .cont L [] := by
  unfold procStep
  rw [if_pos (Or.inr h)]

/-- With a key-independent backend, whatever status one loop iteration
writes for its own item is the item-determined `pureStatus`. -/
theorem procStep_own_bvid (cfg : Cfg) (v : Item) (L : Loop)
    (hket : ∀ kh, cfg.backend kh v.bvid = cfg.backend "" v.bvid) :
    lookupA (procStep cfg v L).loopSt.st.processed v.bvid
        = lookupA L.st.processed v.bvid ∨
    lookupA (procStep cfg v L).loopSt.st.processed v.bvid
        = pureStatus cfg v.bvid := by
  unfold procStep
  by_cases hskip : v.bvid = "" ∨ lookupA L.st.processed v.bvid = some .ok ∨
      lookupA L.st.processed v.bvid = some .no_speech
  · rw [if_pos hskip]; left; rfl
  · rw [if_neg hskip]
    cases hrot : rotateForItem cfg v.duration L with
    | mk ol evs =>
      cases ol with
      | none => left; simp [StepRes.loopSt]
      | some L1 =>
        obtain ⟨-, hst⟩ := rotateForItem_some cfg v.duration L L1 evs hrot
        have hgoal :
            lookupA (downloadPhase cfg v L1).loopSt.st.processed v.bvid
                = lookupA L1.st.processed v.bvid ∨
            lookupA (downloadPhase cfg v L1).loopSt.st.processed v.bvid
                = pureStatus cfg v.bvid := by
          unfold downloadPhase
          by_cases hdl : cfg.dl v.bvid
          · rw [if_neg (by simpa using hdl)]
            unfold transcribePhase
            cases hbe : cfg.backend L1.kh v.bvid with
            | success nonempty actual =>
              right
              have hbe0 : cfg.backend "" v.bvid
                  = .success nonempty actual := by rw [← hket L1.kh, hbe]
              cases nonempty <;>
                by_cases hck :
                  (if False then L1.runOk + 1 else L1.runOk) % 20 = 0 <;>
                simp [StepRes.loopSt, chargeKey, recordStatus,
                  pureStatus, hdl, hbe0, lookupA_insertA_self]
            | rateLimit =>
              left
              cases hfind : find_available_key cfg.keys L1.st
                  (L1.currentIdx + 1) v.duration with
              | some p =>
                obtain ⟨j, kh'⟩ := p
                simp [hfind, StepRes.loopSt]
              | none => simp [hfind, StepRes.loopSt]
            | otherError =>
              right
              have hbe0 : cfg.backend "" v.bvid = .otherError := by
                rw [← hket L1.kh, hbe]
              simp [StepRes.loopSt, recordStatus, pureStatus, hdl, hbe0,
                lookupA_insertA_self]
          · rw [if_pos (by simpa using hdl)]
            right
            have hdl' : cfg.dl v.bvid = false := by simpa using hdl
            by_cases hstreak : L1.dlFails + 1 ≥ 10 <;>
              simp [hstreak, StepRes.loopSt, recordStatus, pureStatus,
                hdl', lookupA_insertA_self]
        cases hd : downloadPhase cfg v L1 with
        | halt L2 e2 =>
          rw [hd] at hgoal
          simp only [StepRes.prepend, hd, StepRes.loopSt] at hgoal ⊢
          rw [hst] at hgoal
          exact hgoal
        | cont L2 e2 =>
          rw [hd] at hgoal
          simp only [StepRes.prepend, hd, StepRes.loopSt] at hgoal ⊢
          rw [hst] at hgoal
          exact hgoal


/-- Unfolding: a halting step ends the loop. -/
theorem procLoop_cons_halt (cfg : Cfg) (v : Item) (rest : List Item)
    (L L' : Loop) (evs : List Ev) (h : procStep cfg v L = .halt L' evs) :
    procLoop cfg (v :: rest) L = (L', evs) := by
  rw [procLoop, h]

/-- Unfolding: a continuing step prefixes its events and recurses. -/
theorem procLoop_cons_cont (cfg : Cfg) (v : Item) (rest : List Item)
    (L L' : Loop) (evs : List Ev) (h : procStep cfg v L = .cont L' evs) :
    procLoop cfg (v :: rest) L =
      ((procLoop cfg rest L').1, evs ++ (procLoop cfg rest L').2) := by
  rw [procLoop, h]

/-- Items already `ok`/`no_speech` in the loaded checkpoint keep their
status through the whole loop and are never named in any event. -/
theorem procLoop_preserves_done (cfg : Cfg) :
    ∀ (queue : List Item) (L : Loop) (b : String),
    (lookupA L.st.processed b = some .ok ∨
      lookupA L.st.processed b = some .no_speech) →
    lookupA (procLoop cfg queue L).1.st.processed b
        = lookupA L.st.processed b ∧
    ∀ e ∈ (procLoop cfg queue L).2, mentionsBvid b e = false := by
  intro queue
  induction queue with
  | nil => intro L b _; exact ⟨rfl, by simp [procLoop]⟩
  | cons v rest ih =>
    intro L b h
    by_cases hvb : v.bvid = b
    · have hskip := procStep_skip cfg v L (by rw [hvb]; exact h)
      rw [procLoop_cons_cont cfg v rest L L [] hskip]
      obtain ⟨h1, h2⟩ := ih L b h
      exact ⟨h1, by simpa using h2⟩
    · obtain ⟨hp1, hp2⟩ := procStep_other_bvid cfg v L b hvb
      cases hstep : procStep cfg v L with
      | halt L' evs =>
        rw [hstep] at hp1 hp2
        simp only [StepRes.loopSt, StepRes.evs] at hp1 hp2
        rw [procLoop_cons_halt cfg v rest L L' evs hstep]
        exact ⟨hp1, hp2⟩
      | cont L' evs =>
        rw [hstep] at hp1 hp2
        simp only [StepRes.loopSt, StepRes.evs] at hp1 hp2
        rw [procLoop_cons_cont cfg v rest L L' evs hstep]
        obtain ⟨i1, i2⟩ := ih L' b (by rw [hp1]; exact h)
        refine ⟨by simpa [hp1] using i1, ?_⟩
        intro e he
        simp only [List.mem_append] at he
        rcases he with he | he
        · exact hp2 e he
        · exact i2 e he

/-- With a key-independent backend, any status the loop leaves for an
identifier is either the status it started with or the item-determined
`pureStatus`. -/
theorem procLoop_status_pure (cfg : Cfg)
    (hdet : ∀ kh b, cfg.backend kh b = cfg.backend "" b) :
    ∀ (queue : List Item) (L : Loop) (b : String),
    lookupA (procLoop cfg queue L).1.st.processed b
        = lookupA L.st.processed b ∨
    lookupA (procLoop cfg queue L).1.st.processed b = pureStatus cfg b := by
  intro queue
  induction queue with
  | nil => intro L b; left; rfl
  | cons v rest ih =>
    intro L b
    have hstep : lookupA (procStep cfg v L).loopSt.st.processed b
          = lookupA L.st.processed b ∨
        lookupA (procStep cfg v L).loopSt.st.processed b
          = pureStatus cfg b := by
      by_cases hvb : v.bvid = b
      · subst hvb
        exact procStep_own_bvid cfg v L (fun kh => hdet kh v.bvid)
      · left; exact (procStep_other_bvid cfg v L b hvb).1
    cases hs : procStep cfg v L with
    | halt L' evs =>
      rw [procLoop_cons_halt cfg v rest L L' evs hs]
      rw [hs] at hstep
      simpa [StepRes.loopSt] using hstep
    | cont L' evs =>
      rw [procLoop_cons_cont cfg v rest L L' evs hs]
      rw [hs] at hstep
      simp only [StepRes.loopSt] at hstep
      rcases ih L' b with i | i
      · simp only [i]
        exact hstep
      · right; simpa using i

/-- Identifiers absent from the queue are never touched and never
mentioned. -/
theorem procLoop_untouched (cfg : Cfg) :
    ∀ (queue : List Item) (L : Loop) (b : String),
    (∀ v ∈ queue, v.bvid ≠ b) →
    lookupA (procLoop cfg queue L).1.st.processed b
        = lookupA L.st.processed b ∧
    ∀ e ∈ (procLoop cfg queue L).2, mentionsBvid b e = false := by
  intro queue
  induction queue with
  | nil => intro L b _; exact ⟨rfl, by simp [procLoop]⟩
  | cons v rest ih =>
    intro L b h
    have hvb : v.bvid ≠ b := h v (by simp)
    obtain ⟨hp1, hp2⟩ := procStep_other_bvid cfg v L b hvb
    cases hstep : procStep cfg v L with
    | halt L' evs =>
      rw [hstep] at hp1 hp2
      simp only [StepRes.loopSt, StepRes.evs] at hp1 hp2
      rw [procLoop_cons_halt cfg v rest L L' evs hstep]
      exact ⟨hp1, hp2⟩
    | cont L' evs =>
      rw [hstep] at hp1 hp2
      simp only [StepRes.loopSt, StepRes.evs] at hp1 hp2
      rw [procLoop_cons_cont cfg v rest L L' evs hstep]
      obtain ⟨i1, i2⟩ := ih L' b (fun w hw => h w (by simp [hw]))
      refine ⟨by simpa [hp1] using i1, ?_⟩
      intro e he
      simp only [List.mem_append] at he
      rcases he with he | he
      · exact hp2 e he
      · exact i2 e he


/-- Unfolding `runMain` when the initial key search succeeds. -/
theorem runMain_eq_some (cfg : Cfg) (st : St) (queue : List Item)
    (i : Nat) (kh0 : String)
    (h : find_available_key cfg.keys st 0 0 = some (i, kh0)) :
    runMain cfg st queue =
      ((procLoop cfg
          (queue.filter (fun v => v.duration ≤ MAX_DURATION_SEC))
          ⟨st, i, kh0, 0, 0⟩).1.st,
        (procLoop cfg
          (queue.filter (fun v => v.duration ≤ MAX_DURATION_SEC))
          ⟨st, i, kh0, 0, 0⟩).2 ++
          [.save (procLoop cfg
            (queue.filter (fun v => v.duration ≤ MAX_DURATION_SEC))
            ⟨st, i, kh0, 0, 0⟩).1.st]) := by
  unfold runMain
  rw [h]

/-- Unfolding `runMain` when the whole pool is exhausted at entry. -/
theorem runMain_eq_none (cfg : Cfg) (st : St) (queue : List Item)
    (h : find_available_key cfg.keys st 0 0 = none) :
    runMain cfg st queue = (st, [.save st]) := by
  unfold runMain
  rw [h]

/-- **C6** — If, when an item is about to be processed, no credential in
the pool has headroom for its cost, the run halts at once: the checkpoint
is flushed (`save` event), no further download or backend call happens in
this run, and the loop returns normally with the checkpoint unchanged. -/
theorem pool_exhausted_halts (cfg : Cfg) (v : Item) (rest : List Item)
    (L : Loop)
    (hbv : ¬ (v.bvid = "" ∨ lookupA L.st.processed v.bvid = some .ok ∨
      lookupA L.st.processed v.bvid = some .no_speech))
    (hkh : L.kh = key_hash (cfg.keys.getD L.currentIdx ""))
    (hidx : L.currentIdx < cfg.keys.length)
    (hall : ∀ i, i < cfg.keys.length →
      key_has_quota L.st (key_hash (cfg.keys.getD i "")) v.duration
        = false) :
    procLoop cfg (v :: rest) L = (L, [.save L.st, .haltExhausted]) ∧
    (∀ b kh hh dd dur,
      Ev.backendCall b kh hh dd dur ∉ (procLoop cfg (v :: rest) L).2) ∧
    (∀ b okd, Ev.download b okd ∉ (procLoop cfg (v :: rest) L).2) ∧
    Ev.save L.st ∈ (procLoop cfg (v :: rest) L).2 := by
  have hqcur : key_has_quota L.st L.kh v.duration = false := by
    rw [hkh]; exact hall _ hidx
  have hrot : rotateForItem cfg v.duration L = (none, [.save L.st]) := by
    unfold rotateForItem
    rw [if_neg (by simp [hqcur]),
      find_available_key_none cfg.keys L.st _ _ hall]
  have hstep : procStep cfg v L
      = .halt L [.save L.st, .haltExhausted] := by
    unfold procStep
    rw [if_neg hbv, hrot]
    rfl
  have heq := procLoop_cons_halt cfg v rest L L _ hstep
  refine ⟨heq, ?_, ?_, ?_⟩
  · intro b kh hh dd dur
    rw [heq]; simp
  · intro b okd
    rw [heq]; simp
  · rw [heq]; simp

/-- Witness for C6: a one-key pool whose hourly counter is already at the
limit halts immediately on a 100-second item. -/
theorem pool_exhausted_halts_witness :
    procLoop cfgCrash [⟨"x", 100⟩] loopExhausted
      = (loopExhausted, [.save loopExhausted.st, .haltExhausted]) :=
  (pool_exhausted_halts cfgCrash ⟨"x", 100⟩ [] loopExhausted (by decide)
    (by decide) (by decide) (by decide)).1

/-- **C2** counterexample — two keys, item `a` rate-limited on the first
key only, everything else succeeding: after the rate-limit the run rotates
but `continue`s to the *next* item, so `a` ends the run with no status and
exactly one backend call was made for it, while `b` is processed on the
second key.  Under the claim, `a` would have been retried on the second
key and finished `ok`. -/
theorem rate_limited_item_not_retried_cex :
    lookupA (runMain cfgRL initSt queueRL).1.processed "a" = none ∧
    backendCallsFor "a" (runMain cfgRL initSt queueRL).2 = 1 ∧
    lookupA (runMain cfgRL initSt queueRL).1.processed "b" = some .ok := by
  decide

/-- **C2** (amended) — When the backend rate-limits an item, the processor
saves no status for that item, rotates to the round-robin-next credential
with headroom, and proceeds with the *next* queue item under the new
credential (the rate-limited item is left unrecorded, to be retried by a
later run); only if no credential has headroom does the run halt. -/
theorem rate_limit_rotates_then_moves_on (cfg : Cfg) (v : Item)
    (rest : List Item) (L : Loop)
    (hbv : ¬ (v.bvid = "" ∨ lookupA L.st.processed v.bvid = some .ok ∨
      lookupA L.st.processed v.bvid = some .no_speech))
    (hq : key_has_quota L.st L.kh v.duration = true)
    (hdl : cfg.dl v.bvid = true)
    (hrl : cfg.backend L.kh v.bvid = .rateLimit) :
    (∀ j kh', find_available_key cfg.keys L.st (L.currentIdx + 1)
        v.duration = some (j, kh') →
      procLoop cfg (v :: rest) L =
        ((procLoop cfg rest
            { L with currentIdx := j, kh := kh', dlFails := 0 }).1,
          Ev.download v.bvid true ::
            Ev.backendCall v.bvid L.kh
              (get_key_usage L.st L.kh).hourly_audio
              (get_key_usage L.st L.kh).daily_audio v.duration ::
            (procLoop cfg rest
              { L with currentIdx := j, kh := kh', dlFails := 0 }).2)) ∧
    (find_available_key cfg.keys L.st (L.currentIdx + 1) v.duration
        = none →
      procLoop cfg (v :: rest) L =
        ({ L with dlFails := 0 },
          [Ev.download v.bvid true,
            Ev.backendCall v.bvid L.kh
              (get_key_usage L.st L.kh).hourly_audio
              (get_key_usage L.st L.kh).daily_audio v.duration,
            Ev.haltExhausted])) := by
  constructor
  · intro j kh' hfind
    have hstep : procStep cfg v L = .cont
        { L with currentIdx := j, kh := kh', dlFails := 0 }
        [Ev.download v.bvid true,
          Ev.backendCall v.bvid L.kh
            (get_key_usage L.st L.kh).hourly_audio
            (get_key_usage L.st L.kh).daily_audio v.duration] := by
      unfold procStep rotateForItem downloadPhase transcribePhase
      rw [if_neg hbv, if_pos hq]
      simp [hdl, hrl, hfind, StepRes.prepend]
    rw [procLoop_cons_cont cfg v rest L _ _ hstep]
    rfl
  · intro hfind
    have hstep : procStep cfg v L = .halt { L with dlFails := 0 }
        [Ev.download v.bvid true,
          Ev.backendCall v.bvid L.kh
            (get_key_usage L.st L.kh).hourly_audio
            (get_key_usage L.st L.kh).daily_audio v.duration,
          Ev.haltExhausted] := by
      unfold procStep rotateForItem downloadPhase transcribePhase
      rw [if_neg hbv, if_pos hq]
      simp [hdl, hrl, hfind, StepRes.prepend]
    exact procLoop_cons_halt cfg v rest L _ _ hstep

/-- Witness for the amended C2 at the concrete two-key scenario. -/
theorem rate_limit_rotates_then_moves_on_witness :
    procLoop cfgRL [⟨"a", 10⟩, ⟨"b", 10⟩] ⟨initSt, 0, "AAAAAAk0", 0, 0⟩ =
      ((procLoop cfgRL [⟨"b", 10⟩] ⟨initSt, 1, "BBBBBBk1", 0, 0⟩).1,
        Ev.download "a" true :: Ev.backendCall "a" "AAAAAAk0" 0 0 10 ::
          (procLoop cfgRL [⟨"b", 10⟩] ⟨initSt, 1, "BBBBBBk1", 0, 0⟩).2) :=
  (rate_limit_rotates_then_moves_on cfgRL ⟨"a", 10⟩ [⟨"b", 10⟩]
      ⟨initSt, 0, "AAAAAAk0", 0, 0⟩ (by decide) (by decide) (by decide)
      (by decide)).1 1 "BBBBBBk1" (by decide)


/-- **C3** counterexample — one key, deterministic key-independent
environment.  The uninterrupted run from an empty checkpoint ends with
item `c` transcribed `ok`.  Killing the run right after its second
`save_status` (a reachable checkpoint, exhibited as an element of the
uninterrupted run's save trace) and restarting replays the failed download
`b` against the restored usage counters, finds no key with headroom for
it, and halts before ever reaching `c`: the restarted run's final status
map has no entry for `c`. -/
theorem crash_restart_final_maps_differ_cex :
    crashSt ∈ savesOf (runMain cfgCrash initSt queueCrash).2 ∧
    lookupA (runMain cfgCrash initSt queueCrash).1.processed "c"
      = some .ok ∧
    lookupA (runMain cfgCrash crashSt queueCrash).1.processed "c"
      = none := by
  decide

/-- **C3** (amended) — For a deterministic (key-independent) backend and
any starting checkpoint: every item recorded `ok` or `no_speech` in the
loaded checkpoint is skipped untouched (no download, no backend call, no
event naming it), and any status a run ends with for an identifier is
either the status the checkpoint already had or the single item-determined
`pureStatus` — so a killed-and-restarted run can never record a status
that *differs* from the uninterrupted run's; what the counterexample shows
may differ is *which* items get a status at all. -/
theorem restart_statuses_agree (cfg : Cfg)
    (hdet : ∀ kh b, cfg.backend kh b = cfg.backend "" b)
    (st : St) (queue : List Item) (b : String) :
    (lookupA (runMain cfg st queue).1.processed b
        = lookupA st.processed b ∨
      lookupA (runMain cfg st queue).1.processed b = pureStatus cfg b) ∧
    ((lookupA st.processed b = some .ok ∨
        lookupA st.processed b = some .no_speech) →
      lookupA (runMain cfg st queue).1.processed b
          = lookupA st.processed b ∧
      ∀ e ∈ (runMain cfg st queue).2, mentionsBvid b e = false) := by
  rcases hfind : find_available_key cfg.keys st 0 0 with _ | ⟨i, kh0⟩
  · rw [runMain_eq_none cfg st queue hfind]
    refine ⟨Or.inl rfl, fun _ => ⟨rfl, ?_⟩⟩
    intro e he
    simp at he
    subst he
    rfl
  · rw [runMain_eq_some cfg st queue i kh0 hfind]
    constructor
    · simpa using procLoop_status_pure cfg hdet
        (queue.filter (fun v => v.duration ≤ MAX_DURATION_SEC))
        ⟨st, i, kh0, 0, 0⟩ b
    · intro h
      obtain ⟨h1, h2⟩ := procLoop_preserves_done cfg
        (queue.filter (fun v => v.duration ≤ MAX_DURATION_SEC))
        ⟨st, i, kh0, 0, 0⟩ b h
      refine ⟨by simpa using h1, ?_⟩
      intro e he
      simp only [List.mem_append, List.mem_singleton] at he
      rcases he with he | he
      · exact h2 e he
      · subst he; rfl

/-- Witness for the amended C3: restarting the crash scenario from the
crash checkpoint leaves the recorded `ok` of item `a1` untouched and
never names `a1` again. -/
theorem restart_statuses_agree_witness :
    lookupA (runMain cfgCrash crashSt queueCrash).1.processed "a1"
        = lookupA crashSt.processed "a1" ∧
    ∀ e ∈ (runMain cfgCrash crashSt queueCrash).2,
      mentionsBvid "a1" e = false :=
  (restart_statuses_agree cfgCrash (fun _ _ => rfl) crashSt queueCrash
    "a1").2 (by decide)

/-- **C10** — Items whose declared duration exceeds `MAX_DURATION_SEC`
(1800 s) are filtered out of the queue before the main loop: for any
identifier all of whose queue entries are over-long, the run changes
nothing about that identifier's status and emits no download or backend
call naming it — the run records statuses only for items of duration at
most 1800 s. -/
theorem overlong_items_silently_dropped (cfg : Cfg) (st : St)
    (queue : List Item) (b : String)
    (hb : ∀ v ∈ queue, v.bvid = b → MAX_DURATION_SEC < v.duration) :
    lookupA (runMain cfg st queue).1.processed b
        = lookupA st.processed b ∧
    ∀ e ∈ (runMain cfg st queue).2, mentionsBvid b e = false := by
  have hfilter : ∀ v ∈ queue.filter
      (fun v => v.duration ≤ MAX_DURATION_SEC), v.bvid ≠ b := by
    intro v hv hvb
    simp only [List.mem_filter, decide_eq_true_eq] at hv
    have := hb v hv.1 hvb
    omega
  rcases hfind : find_available_key cfg.keys st 0 0 with _ | ⟨i, kh0⟩
  · rw [runMain_eq_none cfg st queue hfind]
    refine ⟨rfl, ?_⟩
    intro e he
    simp at he
    subst he
    rfl
  · rw [runMain_eq_some cfg st queue i kh0 hfind]
    obtain ⟨h1, h2⟩ := procLoop_untouched cfg
      (queue.filter (fun v => v.duration ≤ MAX_DURATION_SEC))
      ⟨st, i, kh0, 0, 0⟩ b hfilter
    refine ⟨by simpa using h1, ?_⟩
    intro e he
    simp only [List.mem_append, List.mem_singleton] at he
    rcases he with he | he
    · exact h2 e he
    · subst he; rfl

/-- Witness for C10: a 2000-second item is never touched by a run that
processes the rest of its queue. -/
theorem overlong_items_silently_dropped_witness :
    lookupA (runMain cfgRL initSt [⟨"long", 2000⟩, ⟨"b", 10⟩]).1.processed
        "long" = lookupA initSt.processed "long" ∧
    ∀ e ∈ (runMain cfgRL initSt [⟨"long", 2000⟩, ⟨"b", 10⟩]).2,
      mentionsBvid "long" e = false :=
  overlong_items_silently_dropped cfgRL initSt [⟨"long", 2000⟩, ⟨"b", 10⟩]
    "long" (by decide)


/-- **C8** counterexample — the batch processor's `save_status` writes the
temp file and renames it but never forces the bytes durable: there is no
fsync in its operation sequence, so "forces the written bytes durable"
fails for the processor status checkpoint. -/
theorem save_status_not_fsynced_cex :
    forcesDurableBeforeRename save_status_ops = false ∧
    FileOp.fsyncTemp ∉ save_status_ops := by
  decide

/-- **C8** (amended) — Both checkpoint writers write the new state to a
sibling temporary path and finish with a single atomic rename over the
target (no operation ever touches the target before the rename, so a
reader sees the old or the new complete file); but only the collector's
`atomic_write_json` flushes and fsyncs before the rename — the
processor's `save_status` renames without forcing durability. -/
theorem checkpoint_write_discipline :
    atomicReplace atomic_write_json_ops = true ∧
    forcesDurableBeforeRename atomic_write_json_ops = true ∧
    atomicReplace save_status_ops = true ∧
    FileOp.fsyncTemp ∉ save_status_ops := by
  decide

/-- **C9** counterexample — a remote that always times out: after 50 loop
iterations the per-bucket page loop is still running.  The timeout
handler (step1, lines 244-247) retries the same page without touching the
error counter, so no fixed retry bound exists and the loop need not
terminate. -/
theorem timeout_retries_unbounded_cex :
    ffRun false 0 timeoutRemote 50 (ffInit 1 []) = none := by
  decide

/-- **C9** (amended) — A non-auth error response retries the same page
(error counter incremented, page unchanged) and the bucket is abandoned —
returned non-fatally, so the remaining buckets continue — once five
consecutive errors accumulate; but a timeout retries the same page with
*no* counter change at all, so timeout retries are unbounded and the page
loop is not guaranteed to terminate under persistent timeouts. -/
theorem transient_retry_discipline :
    (∀ (incr : Bool) (cutoff : Nat) (remote : Nat → Nat → PageResp)
        (s : FFSt) (c : Int),
      remote s.calls s.page = .errCode c → c ≠ -403 → c ≠ -101 →
      s.errors + 1 < 5 →
      ffStep incr cutoff remote s
        = .cont { s with calls := s.calls + 1, errors := s.errors + 1 }) ∧
    (∀ (incr : Bool) (cutoff : Nat) (remote : Nat → Nat → PageResp)
        (s : FFSt) (c : Int),
      remote s.calls s.page = .errCode c → c ≠ -403 → c ≠ -101 →
      s.errors + 1 ≥ 5 →
      ffStep incr cutoff remote s
        = .done { s with calls := s.calls + 1, errors := s.errors + 1 }
            false) ∧
    (∀ (incr : Bool) (cutoff : Nat) (remote : Nat → Nat → PageResp)
        (s : FFSt),
      remote s.calls s.page = .timeout →
      ffStep incr cutoff remote s = .cont { s with calls := s.calls + 1 }) ∧
    (∀ (isIncr : Bool) (cutoff : Nat) (remote : Nat → Nat → Nat → PageResp)
        (fuel sfi i : Nat) (f : Folder) (rest : List (Nat × Folder))
        (ms : MState) (fs : FFSt),
      ¬ (¬ isIncr ∧ i < sfi) → f.media_count ≠ 0 →
      ffRun isIncr cutoff (remote i) fuel
          (ffInit (if ¬ isIncr ∧ i = sfi then ms.startPage else 1) ms.seen)
        = some (fs, false) →
      ∃ ms', folderLoop isIncr cutoff remote fuel sfi ((i, f) :: rest) ms
        = folderLoop isIncr cutoff remote fuel sfi rest ms') := by
  refine ⟨?_, ?_, ?_, ?_⟩
  · intro incr cutoff remote s c hresp hc403 hc101 herr
    unfold ffStep
    rw [hresp]
    simp only [if_neg hc403, if_neg hc101,
      if_neg (by omega : ¬ s.errors + 1 ≥ 5)]
  · intro incr cutoff remote s c hresp hc403 hc101 herr
    unfold ffStep
    rw [hresp]
    simp only [if_neg hc403, if_neg hc101, if_pos herr]
  · intro incr cutoff remote s hresp
    unfold ffStep
    rw [hresp]
  · intro isIncr cutoff remote fuel sfi i f rest ms fs hskip hmc hrun
    refine ⟨folderMerge isIncr i { ms with startPage := 1 } fs, ?_⟩
    rw [folderLoop, if_neg hskip, if_neg hmc, hrun]
    rfl

/-- Witness for the amended C9: one concrete error-code retry, one
concrete abandonment, one concrete timeout retry, and a folder abandoned
by an unrecoverable error after which the folder loop moves on. -/
theorem transient_retry_discipline_witness :
    ffStep false 0 (fun _ _ => .errCode 500) (ffInit 1 [])
      = .cont { ffInit 1 [] with calls := 1, errors := 1 } ∧
    ffStep false 0 (fun _ _ => .errCode 500)
      { ffInit 1 [] with errors := 4 }
      = .done { ffInit 1 [] with calls := 1, errors := 5 } false ∧
    ffStep false 0 timeoutRemote (ffInit 1 [])
      = .cont { ffInit 1 [] with calls := 1 } ∧
    (∃ ms', folderLoop false 0 excRemote 10 0
        [(0, ⟨7, 5⟩)] ⟨[], [], 0, 0, [], 1⟩
      = folderLoop false 0 excRemote 10 0 [] ms') :=
  ⟨transient_retry_discipline.1 false 0 (fun _ _ => .errCode 500)
      (ffInit 1 []) 500 rfl (by decide) (by decide) (by decide),
   transient_retry_discipline.2.1 false 0 (fun _ _ => .errCode 500)
      { ffInit 1 [] with errors := 4 } 500 rfl (by decide) (by decide)
      (by decide),
   transient_retry_discipline.2.2.1 false 0 timeoutRemote (ffInit 1 []) rfl,
   transient_retry_discipline.2.2.2 false 0 excRemote 10 0 0 ⟨7, 5⟩ []
      ⟨[], [], 0, 0, [], 1⟩ ⟨[⟨"m1", 50⟩], ["m1"], 2, 0, 0, 2⟩
      (by decide) (by decide) (by decide)⟩


/-- Folding `max` over insertion markers never goes below its start. -/
theorem foldl_max_le_init (l : List Video) :
    ∀ a : Nat, a ≤ l.foldl (fun acc v => max acc v.fav_time) a := by
  induction l with
  | nil => intro a; exact le_rfl
  | cons v rest ih =>
    intro a
    exact le_trans (Nat.le_max_left a v.fav_time) (ih (max a v.fav_time))

/-- Merging a folder result never lowers the running maximum marker. -/
theorem folderMerge_maxFav (isIncr : Bool) (i : Nat) (ms : MState)
    (fs : FFSt) : ms.maxFav ≤ (folderMerge isIncr i ms fs).maxFav := by
  unfold folderMerge
  by_cases hincr : ¬ isIncr = true
  · rw [if_pos hincr]; exact foldl_max_le_init fs.videos ms.maxFav
  · rw [if_neg hincr]; exact foldl_max_le_init fs.videos ms.maxFav

/-- Progress checkpoints appended by a merge carry `next_page = 1`. -/
theorem folderMerge_saves (isIncr : Bool) (i : Nat) (ms : MState)
    (fs : FFSt) (hinv : ∀ p ∈ ms.saves, p.next_page = 1) :
    ∀ p ∈ (folderMerge isIncr i ms fs).saves, p.next_page = 1 := by
  unfold folderMerge
  by_cases hincr : ¬ isIncr = true
  · rw [if_pos hincr]
    intro p hp
    simp only [List.mem_append, List.mem_singleton] at hp
    rcases hp with hp | hp
    · exact hinv p hp
    · subst hp; rfl
  · rw [if_neg hincr]
    exact hinv

/-- The folder loop never lowers the running maximum insertion marker. -/
theorem folderLoop_maxFav_mono (isIncr : Bool) (cutoff : Nat)
    (remote : Nat → Nat → Nat → PageResp) (fuel sfi : Nat) :
    ∀ (folders : List (Nat × Folder)) (ms res : MState) (expired : Bool),
    folderLoop isIncr cutoff remote fuel sfi folders ms
      = some (res, expired) → ms.maxFav ≤ res.maxFav := by
  intro folders
  induction folders with
  | nil =>
    intro ms res expired h
    rw [folderLoop] at h
    simp only [Option.some.injEq, Prod.mk.injEq] at h
    rw [h.1]
  | cons p rest ih =>
    obtain ⟨i, f⟩ := p
    intro ms res expired h
    rw [folderLoop] at h
    by_cases hskip : ¬ isIncr = true ∧ i < sfi
    · rw [if_pos hskip] at h
      exact ih ms res expired h
    · rw [if_neg hskip] at h
      by_cases hmc : f.media_count = 0
      · rw [if_pos hmc] at h
        exact ih { ms with startPage := 1 } res expired h
      · rw [if_neg hmc] at h
        cases hrun : ffRun isIncr cutoff (remote i) fuel
            (ffInit (if ¬ isIncr = true ∧ i = sfi then ms.startPage else 1)
              ({ ms with startPage := 1 }).seen) with
        | none => rw [hrun] at h; exact absurd h (by simp)
        | some q =>
          obtain ⟨fs, expired'⟩ := q
          rw [hrun] at h
          have hbase : ms.maxFav ≤
              (folderMerge isIncr i { ms with startPage := 1 } fs).maxFav :=
            folderMerge_maxFav isIncr i { ms with startPage := 1 } fs
          cases expired' with
          | true =>
            dsimp only at h
            rw [if_pos (Eq.refl true)] at h
            simp only [Option.some.injEq, Prod.mk.injEq] at h
            rw [← h.1]
            exact hbase
          | false =>
            dsimp only at h
            exact le_trans hbase (ih _ res expired h)

/-- Every progress checkpoint the folder loop ever holds carries
`next_page = 1`. -/
theorem folderLoop_saves_next_page (isIncr : Bool) (cutoff : Nat)
    (remote : Nat → Nat → Nat → PageResp) (fuel sfi : Nat) :
    ∀ (folders : List (Nat × Folder)) (ms res : MState) (expired : Bool),
    folderLoop isIncr cutoff remote fuel sfi folders ms
      = some (res, expired) →
    (∀ p ∈ ms.saves, p.next_page = 1) →
    ∀ p ∈ res.saves, p.next_page = 1 := by
  intro folders
  induction folders with
  | nil =>
    intro ms res expired h hinv
    rw [folderLoop] at h
    simp only [Option.some.injEq, Prod.mk.injEq] at h
    rw [← h.1]
    exact hinv
  | cons p rest ih =>
    obtain ⟨i, f⟩ := p
    intro ms res expired h hinv
    rw [folderLoop] at h
    by_cases hskip : ¬ isIncr = true ∧ i < sfi
    · rw [if_pos hskip] at h
      exact ih ms res expired h hinv
    · rw [if_neg hskip] at h
      by_cases hmc : f.media_count = 0
      · rw [if_pos hmc] at h
        exact ih { ms with startPage := 1 } res expired h hinv
      · rw [if_neg hmc] at h
        cases hrun : ffRun isIncr cutoff (remote i) fuel
            (ffInit (if ¬ isIncr = true ∧ i = sfi then ms.startPage else 1)
              ({ ms with startPage := 1 }).seen) with
        | none => rw [hrun] at h; exact absurd h (by simp)
        | some q =>
          obtain ⟨fs, expired'⟩ := q
          rw [hrun] at h
          have hinv3 :=
            folderMerge_saves isIncr i { ms with startPage := 1 } fs hinv
          cases expired' with
          | true =>
            dsimp only at h
            rw [if_pos (Eq.refl true)] at h
            simp only [Option.some.injEq, Prod.mk.injEq] at h
            rw [← h.1]
            exact hinv3
          | false =>
            dsimp only at h
            exact ih _ res expired h hinv3

/-- A progress record whose `next_page` is 1 resumes at
`(folder_idx, 1)`. -/
theorem resumeStart_of_next_page_one (p : Progress)
    (h : p.next_page = 1) : resumeStart p = (p.folder_idx, 1) := by
  unfold resumeStart
  rw [h]
  by_cases hfi : p.folder_idx > 0 ∨ 1 > 1 <;> simp [hfi]


/-- **C4** counterexample — a `--full` run after a previous cursor of 1000
(here: the folder listing contains one empty folder, so the run collects
nothing) ends by saving cursor 0: the cursor regresses to zero on an empty
full run. -/
theorem full_run_cursor_regresses_cex :
    (collectorMain true (some ⟨1000, 5⟩) [] none [⟨1, 0⟩] excRemote
        10).map (fun r => r.savedScan.latest_fav_time) = some 0 ∧
    (0 : Nat) < 1000 := by
  decide

/-- **C4** (amended) — In incremental mode the cursor is monotone: the
run starts its running maximum at the previous cursor and only ever folds
new markers into it, so the saved cursor is at least the previous one
(also on runs that find nothing and runs aborted by cookie expiry).  Full
mode, by contrast, recomputes the cursor from scratch (cutoff 0) and can
regress it, as the counterexample shows. -/
theorem incremental_cursor_monotone (ls : ScanRecord)
    (existing : List Video) (pf : Option Progress)
    (folders : List Folder) (remote : Nat → Nat → Nat → PageResp)
    (fuel : Nat) (res : MainRes)
    (h : collectorMain false (some ls) existing pf folders remote fuel
      = some res) :
    ls.latest_fav_time ≤ res.savedScan.latest_fav_time := by
  unfold collectorMain at h
  dsimp only at h
  split at h
  · exact absurd h (by simp)
  · next ms expired heq =>
    have hmono := folderLoop_maxFav_mono _ _ remote fuel _ folders.enum
      _ ms expired heq
    have hres := Option.some.inj h
    rw [← hres]
    dsimp only
    by_cases hf : ms.maxFav = 0 ∧ ms.allVideos ≠ []
    · rw [if_pos hf]
      have : ls.latest_fav_time ≤ 0 := le_trans hmono (le_of_eq hf.1)
      omega
    · rw [if_neg hf]
      exact hmono

/-- Witness for the amended C4: an incremental run over one empty folder
keeps the previous cursor 100. -/
theorem incremental_cursor_monotone_witness :
    (⟨100, 1⟩ : ScanRecord).latest_fav_time ≤
      (⟨[⟨"k", 100⟩], 0, [], false, ⟨100, 1⟩⟩
        : MainRes).savedScan.latest_fav_time :=
  incremental_cursor_monotone ⟨100, 1⟩ [⟨"k", 100⟩] none [⟨1, 0⟩]
    excRemote 10 ⟨[⟨"k", 100⟩], 0, [], false, ⟨100, 1⟩⟩ (by decide)

/-- **C5** counterexample — folder 0 serves page 1 and hits an
unrecoverable exception on page 2 (its second fetch), yet the progress
persisted after that folder is `{next_page: 1, folder_idx: 1}`: a retried
full run resumes at folder 1 page 1, not at folder 0 page 2 — the errored
folder's remaining pages are skipped, not retried. -/
theorem full_error_save_skips_errored_folder_cex :
    (collectorMain true none [] none [⟨7, 5⟩] excRemote 10).map
        (fun r => r.progressSaves)
      = some [⟨[⟨"m1", 50⟩], 1, 1, ["m1"]⟩] ∧
    resumeStart ⟨[⟨"m1", 50⟩], 1, 1, ["m1"]⟩ = (1, 1) ∧
    excRemote 0 1 2 = PageResp.exc := by
  decide

/-- **C5** (amended) — Progress is persisted only at folder granularity:
every progress checkpoint a collector run saves has `next_page = 1` and
names the next folder to visit, so a retried full run resumes at the
start of the first unvisited folder; a folder aborted by an unrecoverable
page error is recorded as finished and is not re-read at the failing
page. -/
theorem full_progress_saves_resume_at_folder_start (full : Bool)
    (lastScan : Option ScanRecord) (existing : List Video)
    (pf : Option Progress) (folders : List Folder)
    (remote : Nat → Nat → Nat → PageResp) (fuel : Nat) (res : MainRes)
    (h : collectorMain full lastScan existing pf folders remote fuel
      = some res) :
    ∀ p ∈ res.progressSaves, p.next_page = 1 ∧
      resumeStart p = (p.folder_idx, 1) := by
  unfold collectorMain at h
  dsimp only at h
  split at h
  · exact absurd h (by simp)
  · next ms expired heq =>
    have hsaves := folderLoop_saves_next_page _ _ remote fuel _
      folders.enum _ ms expired heq (by intro p hp; simp at hp)
    have hres := Option.some.inj h
    rw [← hres]
    dsimp only
    intro p hp
    have h1 := hsaves p hp
    exact ⟨h1, resumeStart_of_next_page_one p h1⟩

/-- Witness for the amended C5 at the exception scenario. -/
theorem full_progress_saves_resume_at_folder_start_witness :
    (⟨[⟨"m1", 50⟩], 1, 1, ["m1"]⟩ : Progress).next_page = 1 ∧
    resumeStart ⟨[⟨"m1", 50⟩], 1, 1, ["m1"]⟩
      = ((⟨[⟨"m1", 50⟩], 1, 1, ["m1"]⟩ : Progress).folder_idx, 1) :=
  full_progress_saves_resume_at_folder_start true none [] none [⟨7, 5⟩]
    excRemote 10
    ⟨[⟨"m1", 50⟩], 1, [⟨[⟨"m1", 50⟩], 1, 1, ["m1"]⟩], false, ⟨50, 1⟩⟩
    (by decide) ⟨[⟨"m1", 50⟩], 1, 1, ["m1"]⟩ (by decide)


/-- **C7** — The incremental cutoff scans every page to its end: (i) which
items a page scan collects (and the known-set it builds) is independent of
the incoming consecutive-known streak and stop marker, so a new item late
on a page is collected even after the streak reached the threshold
mid-page; (ii) the streak increments exactly on items that are both
already known and at/below the cursor, and resets to zero on any other
item (the stop marker latches at `INCREMENTAL_STOP_THRESHOLD = 3`);
(iii) when the scan of a page sets the stop marker, the bucket read ends
right after that page — with the whole page's scan result incorporated
and the page counter not advanced. -/
theorem incremental_stop_after_full_page :
    (∀ (incr : Bool) (cutoff : Nat) (medias : List Media)
        (videos : List Video) (seen : List String) (ck ck' : Nat)
        (stp stp' : Bool),
      (scanPage incr cutoff medias ⟨videos, seen, ck, stp⟩).videos
          = (scanPage incr cutoff medias ⟨videos, seen, ck', stp'⟩).videos ∧
      (scanPage incr cutoff medias ⟨videos, seen, ck, stp⟩).seen
          = (scanPage incr cutoff medias ⟨videos, seen, ck', stp'⟩).seen) ∧
    (∀ (incr : Bool) (cutoff : Nat) (s : ScanSt) (m : Media),
      (scanStep incr cutoff s m).ck =
        if incr = true ∧ m.bvid ∈ s.seen ∧ m.fav_time ≤ cutoff then
          s.ck + 1
        else 0) ∧
    (∀ (incr : Bool) (cutoff : Nat) (s : FFSt) (medias : List Media)
        (hm : Bool), medias ≠ [] →
      (scanPage incr cutoff medias ⟨s.videos, s.seen, s.ck, false⟩).stop
          = true →
      processPage incr cutoff s medias hm =
        .done { s with
          errors := 0
          videos := (scanPage incr cutoff medias
            ⟨s.videos, s.seen, s.ck, false⟩).videos
          seen := (scanPage incr cutoff medias
            ⟨s.videos, s.seen, s.ck, false⟩).seen
          ck := (scanPage incr cutoff medias
            ⟨s.videos, s.seen, s.ck, false⟩).ck } false) := by
  refine ⟨?_, ?_, ?_⟩
  · intro incr cutoff medias
    induction medias with
    | nil => intro videos seen ck ck' stp stp'; exact ⟨rfl, rfl⟩
    | cons m ms ih =>
      intro videos seen ck ck' stp stp'
      simp only [scanPage, List.foldl_cons] at *
      unfold scanStep
      dsimp only
      by_cases h1 : incr = true ∧ m.bvid ∈ seen ∧ m.fav_time ≤ cutoff
      · rw [if_pos h1, if_pos h1]
        exact ih videos seen (ck + 1) (ck' + 1) _ _
      · rw [if_neg h1, if_neg h1]
        by_cases h2 : m.bvid ∈ seen
        · rw [if_pos h2, if_pos h2]
          exact ih videos seen 0 0 stp stp'
        · rw [if_neg h2, if_neg h2]
          exact ih (videos ++ [parse_video_item m]) (seen ++ [m.bvid])
            0 0 stp stp'
  · intro incr cutoff s m
    unfold scanStep
    by_cases h1 : incr = true ∧ m.bvid ∈ s.seen ∧ m.fav_time ≤ cutoff
    · rw [if_pos h1, if_pos h1]
    · rw [if_neg h1, if_neg h1]
      by_cases h2 : m.bvid ∈ s.seen
      · rw [if_pos h2]
      · rw [if_neg h2]
  · intro incr cutoff s medias hm hne hstop
    unfold processPage
    dsimp only
    rw [if_neg (by simpa using hne), if_pos hstop]

/-- Witness for C7 at a concrete page: three consecutive known items hit
the threshold, yet the unknown item `n1` appearing after them on the same
page is still collected before the bucket read stops. -/
theorem incremental_stop_after_full_page_witness :
    processPage true 100 ⟨[], ["k1", "k2", "k3"], 1, 0, 0, 0⟩
        [⟨"k1", 10⟩, ⟨"k2", 20⟩, ⟨"k3", 30⟩, ⟨"n1", 200⟩] true
      = .done ⟨[⟨"n1", 200⟩], ["k1", "k2", "k3", "n1"], 1, 0, 0, 0⟩
          false :=
  incremental_stop_after_full_page.2.2 true 100
    ⟨[], ["k1", "k2", "k3"], 1, 0, 0, 0⟩
    [⟨"k1", 10⟩, ⟨"k2", 20⟩, ⟨"k3", 30⟩, ⟨"n1", 200⟩] true
    (by decide) (by decide)

end BiliTranscripts
